import Mathlib

/-!
Verification of the record decoder and position-reconstruction pipeline of the
attix preprocessing tool (src/preprocessing/src/main.rs).

Machine integers are modelled as Nat with explicit reduction modulo 2 ^ 64 at
the points where the Rust u64 arithmetic could wrap.  Byte streams are lists of
bytes (Nat).  Fallible reads return Except, mirroring io::Result; the only
error a pure byte-stream read can produce is UnexpectedEof, exactly as
byteorder's read_exact behaves on a stream of bytes.
-/

set_option maxRecDepth 100000
set_option maxHeartbeats 4000000

/-- Embedding of fn reverse_bits_in_bytes (main.rs lines 56-62): three
masked-shift stages that reverse the bit order inside each byte of a u64.
The left shifts are reduced mod 2 ^ 64 exactly as Rust u64 shifts wrap. -/
def reverse_bits_in_bytes (x : Nat) : Nat :=
  let v1 := ((x >>> 1) &&& 0x5555555555555555) |||
            (((x &&& 0x5555555555555555) <<< 1) % 2 ^ 64)
  let v2 := ((v1 >>> 2) &&& 0x3333333333333333) |||
            (((v1 &&& 0x3333333333333333) <<< 2) % 2 ^ 64)
  ((v2 >>> 4) &&& 0x0F0F0F0F0F0F0F0F) |||
    (((v2 &&& 0x0F0F0F0F0F0F0F0F) <<< 4) % 2 ^ 64)

/-- A word made of m copies of the p-bit pattern pat, used to describe the
three mask constants of reverse_bits_in_bytes. -/
def repPat (p pat : Nat) : Nat → Nat
  | 0 => 0
  | m + 1 => pat + 2 ^ p * repPat p pat m

/-- The kinds of io::Error relevant to the decoder: reading past the end of
the byte stream produces UnexpectedEof (as byteorder's read_exact does); any
other io error kind is collapsed into `other`. -/
inductive IoErrorKind where
  | unexpectedEof
  | other
deriving DecidableEq

/-- Embedding of struct TrainingData (main.rs lines 20-54).  f32 fields are
kept as their raw little-endian 32-bit patterns (the program never does float
arithmetic on them before printing); leading underscores of the Rust field
names are dropped. -/
structure TrainingData where
  version : Nat
  input_format : Nat
  probabilities : List Nat
  planes : List Nat
  castling_us_ooo : Nat
  castling_us_oo : Nat
  castling_them_ooo : Nat
  castling_them_oo : Nat
  side_to_move_or_enpassant : Nat
  rule50_count : Nat
  invariance_info : Nat
  dummy : Nat
  root_q : Nat
  best_q : Nat
  root_d : Nat
  best_d : Nat
  root_m : Nat
  best_m : Nat
  plies_left : Nat
  result_q : Nat
  result_d : Nat
  played_q : Nat
  played_d : Nat
  played_m : Nat
  orig_q : Nat
  orig_d : Nat
  orig_m : Nat
  visits : Nat
  played_idx : Nat
  best_idx : Nat
  policy_kld : Nat
  reserved : Nat
deriving DecidableEq

/-- A sequential reader over a byte stream: the pure counterpart of a
std::io::Read value threaded through byteorder's ReadBytesExt calls. -/
def Read (α : Type) : Type :=
  List Nat → Except IoErrorKind (α × List Nat)

instance : Monad Read where
  pure a := fun bs => Except.ok (a, bs)
  bind r f := fun bs =>
    match r bs with
    | Except.ok (a, rest) => f a rest
    | Except.error e => Except.error e

/-- Little-endian value of a list of bytes (first byte is least significant). -/
def leVal : List Nat → Nat
  | [] => 0
  | b :: bs => b + 256 * leVal bs

/-- read_exact on a pure byte stream: take exactly n bytes or fail with
UnexpectedEof. -/
def readBytes : Nat → List Nat → Except IoErrorKind (List Nat × List Nat)
  | 0, bs => Except.ok ([], bs)
  | _ + 1, [] => Except.error IoErrorKind.unexpectedEof
  | n + 1, b :: bs =>
    match readBytes n bs with
    | Except.ok (chunk, rest) => Except.ok (b :: chunk, rest)
    | Except.error e => Except.error e

/-- One little-endian fixed-width read (read_u8 / read_u16 / read_u32 /
read_u64 / read_f32, the latter kept as raw bits), n being the byte width. -/
def readLE (n : Nat) : Read Nat := fun bs =>
  match readBytes n bs with
  | Except.ok (chunk, rest) => Except.ok (leVal chunk, rest)
  | Except.error e => Except.error e

/-- The probabilities loop of read_from: count little-endian reads of the
given byte width, collected in stream order. -/
def readVec (size : Nat) : Nat → Read (List Nat)
  | 0 => pure []
  | count + 1 => do
    let v ← readLE size
    let rest ← readVec size count
    pure (v :: rest)

/-- The planes loop of read_from: count u64 reads, each passed through
reverse_bits_in_bytes as it is read (main.rs line 76). -/
def readPlanes : Nat → Read (List Nat)
  | 0 => pure []
  | count + 1 => do
    let v ← readLE 8
    let rest ← readPlanes count
    pure (reverse_bits_in_bytes v :: rest)

/-- Embedding of TrainingData::read_from (main.rs lines 64-113): the exact
field-by-field little-endian read sequence.  Note that the function performs
no check of the version field. -/
def TrainingData.read_from : Read TrainingData := do
  let version ← readLE 4
  let input_format ← readLE 4
  let probabilities ← readVec 4 1858
  let planes ← readPlanes 104
  let castling_us_ooo ← readLE 1
  let castling_us_oo ← readLE 1
  let castling_them_ooo ← readLE 1
  let castling_them_oo ← readLE 1
  let side_to_move_or_enpassant ← readLE 1
  let rule50_count ← readLE 1
  let invariance_info ← readLE 1
  let dummy ← readLE 1
  let root_q ← readLE 4
  let best_q ← readLE 4
  let root_d ← readLE 4
  let best_d ← readLE 4
  let root_m ← readLE 4
  let best_m ← readLE 4
  let plies_left ← readLE 4
  let result_q ← readLE 4
  let result_d ← readLE 4
  let played_q ← readLE 4
  let played_d ← readLE 4
  let played_m ← readLE 4
  let orig_q ← readLE 4
  let orig_d ← readLE 4
  let orig_m ← readLE 4
  let visits ← readLE 4
  let played_idx ← readLE 2
  let best_idx ← readLE 2
  let policy_kld ← readLE 4
  let reserved ← readLE 4
  pure
    { version := version
      input_format := input_format
      probabilities := probabilities
      planes := planes
      castling_us_ooo := castling_us_ooo
      castling_us_oo := castling_us_oo
      castling_them_ooo := castling_them_ooo
      castling_them_oo := castling_them_oo
      side_to_move_or_enpassant := side_to_move_or_enpassant
      rule50_count := rule50_count
      invariance_info := invariance_info
      dummy := dummy
      root_q := root_q
      best_q := best_q
      root_d := root_d
      best_d := best_d
      root_m := root_m
      best_m := best_m
      plies_left := plies_left
      result_q := result_q
      result_d := result_d
      played_q := played_q
      played_d := played_d
      played_m := played_m
      orig_q := orig_q
      orig_d := orig_d
      orig_m := orig_m
      visits := visits
      played_idx := played_idx
      best_idx := best_idx
      policy_kld := policy_kld
      reserved := reserved }

/-- Embedding of the loop body of process_gz_file (main.rs lines 202-215),
with an explicit fuel argument for termination; process_gz_file supplies
more fuel than records can ever be read.  Records are accumulated in stream
order; an UnexpectedEof from read_from ends the loop successfully, any other
error is returned as the function's own error. -/
def process_gz_go : Nat → List Nat → Except IoErrorKind (List TrainingData)
  | 0, _ => Except.ok []
  | fuel + 1, bs =>
    match TrainingData.read_from bs with
    | Except.ok (td, rest) =>
      match process_gz_go fuel rest with
      | Except.ok tds => Except.ok (td :: tds)
      | Except.error e => Except.error e
    | Except.error e =>
      if e = IoErrorKind.unexpectedEof then Except.ok [] else Except.error e

/-- Embedding of process_gz_file (main.rs lines 202-215) on the decompressed
byte stream of one archive entry. -/
def process_gz_file (bs : List Nat) : Except IoErrorKind (List TrainingData) :=
  process_gz_go (bs.length + 1) bs

/-- One tar archive entry as seen by process_tar_file: its path (as a list
of characters, since only the ends_with(".gz") test is applied to it) and the
decompressed byte stream (or the decompression/read error the external
gzip collaborator produced for it). -/
structure TarEntry where
  path : List Char
  content : Except IoErrorKind (List Nat)

/-- The entry filter of process_tar_file (main.rs line 225):
entry.path().to_string_lossy().ends_with(".gz"). -/
def ends_with_gz (path : List Char) : Bool :=
  ['.', 'g', 'z'].isSuffixOf path

/-- The per-entry work of process_tar_file: decompress (external, already
reflected in content) and run process_gz_file on the resulting bytes. -/
def process_entry (e : TarEntry) : Except IoErrorKind (List TrainingData) :=
  match e.content with
  | Except.ok bs => process_gz_file bs
  | Except.error err => Except.error err

/-- The records an entry contributes: the Ok branch of the match in
process_tar_file (main.rs lines 229-232); on Err only a diagnostic is
printed and nothing is contributed. -/
def entryRecords (e : TarEntry) : List TrainingData :=
  match process_entry e with
  | Except.ok tds => tds
  | Except.error _ => []

/-- Embedding of the entry loop of process_tar_file (main.rs lines 222-237):
idx counts processed qualifying entries; entries whose path does not end in
".gz" are skipped; after an entry is processed the loop breaks once
idx + 1 > 10. -/
def process_tar_go : Nat → List TarEntry → List TrainingData
  | _, [] => []
  | idx, e :: rest =>
    if ends_with_gz e.path then
      entryRecords e ++
        (if idx + 1 > 10 then [] else process_tar_go (idx + 1) rest)
    else
      process_tar_go idx rest

/-- Embedding of process_tar_file (main.rs lines 217-240) over the already
enumerated archive entries (tar traversal is an external collaborator).
Per-entry errors never escape: the function returns Ok with the collected
records. -/
def process_tar_file (entries : List TarEntry) : Except IoErrorKind (List TrainingData) :=
  Except.ok (process_tar_go 0 entries)

/-- The records whose details main prints (main.rs line 253):
training_data.iter().take(args.num_entries). -/
def main_printed (num_entries : Nat) (entries : List TarEntry) : List TrainingData :=
  match process_tar_file entries with
  | Except.ok tds => tds.take num_entries
  | Except.error _ => []

/-- Embedding of the assertion main applies to each printed record
(main.rs line 255): assert_eq!(data.version, 6). -/
def main_version_check (td : TrainingData) : Bool :=
  td.version == 6

/-- Concatenation of a list of byte chunks into one stream, used to state
properties about streams of concatenated fixed-size records. -/
def concat_chunks : List (List Nat) → List Nat
  | [] => []
  | r :: rest => r ++ concat_chunks rest

/-- Concatenation of the records contributed by a list of entries, used to
state which entries process_tar_file actually consumes. -/
def gz_records_concat : List TarEntry → List TrainingData
  | [] => []
  | e :: rest => entryRecords e ++ gz_records_concat rest

/-- Two's-complement negation at width 64, for modelling `x & (-x)`. -/
def neg64 (x : Nat) : Nat :=
  (2 ^ 64 - x % 2 ^ 64) % 2 ^ 64

/-- Modelled from the spec: the Castling Inferencer (spec section 4.4) is not
present in src/preprocessing/src/main.rs (only the raw castling flag bytes are
decoded there); the kingside-rook mask is the lowest set bit of the own-rook
bitboard, the isolate-lowest-bit operation x & (-x). -/
def kingside_rook_mask (rooks : Nat) : Nat :=
  rooks &&& neg64 rooks

/-- Modelled from the spec: the queenside-rook mask is the own-rook bitboard
with the kingside mask bit cleared (symmetric difference of the two). -/
def queenside_rook_mask (rooks : Nat) : Nat :=
  rooks ^^^ kingside_rook_mask rooks

/-- Byte swap of a 64-bit value: reverse the order of the 8 bytes, leaving
the bits inside each byte unchanged. -/
def byteswap64 (x : Nat) : Nat :=
  ((x >>> 56) % 2 ^ 8) + (((x >>> 48) % 2 ^ 8) <<< 8) +
    (((x >>> 40) % 2 ^ 8) <<< 16) + (((x >>> 32) % 2 ^ 8) <<< 24) +
    (((x >>> 24) % 2 ^ 8) <<< 32) + (((x >>> 16) % 2 ^ 8) <<< 40) +
    (((x >>> 8) % 2 ^ 8) <<< 48) + ((x % 2 ^ 8) <<< 56)

/-- Modelled from the spec: the opponent kingside mask is the byte swap of
the own kingside mask (board point symmetry between the two back ranks). -/
def opponent_kingside_mask (rooks : Nat) : Nat :=
  byteswap64 (kingside_rook_mask rooks)

/-- Modelled from the spec: the opponent queenside mask is the byte swap of
the own queenside mask. -/
def opponent_queenside_mask (rooks : Nat) : Nat :=
  byteswap64 (queenside_rook_mask rooks)

/-- Modelled from the spec: the fixed minimum-pieces threshold of the
Filter & Emit component (spec section 4.5), absent from
src/preprocessing/src/main.rs; a position is dropped when its piece count is
less than or equal to this value (boundary: 7 dropped, 8 retained). -/
def MIN_PIECES : Nat := 7

/-- Number of set bits among the low 64 bits of a bitboard. -/
def popcount64 (x : Nat) : Nat :=
  ((List.range 64).filter (fun i => x.testBit i)).length

/-- Modelled from the spec: total set-bit count across the 12 original
per-type-per-side bitboards (not the 6 union role bitboards). -/
def piece_count (boards : List Nat) : Nat :=
  ((boards.take 12).map popcount64).sum

/-- Modelled from the spec: the piece-count filter keeps a position exactly
when its piece count exceeds MIN_PIECES. -/
def keep_position (boards : List Nat) : Bool :=
  decide (MIN_PIECES < piece_count boards)

/-- A reader consumes exactly n bytes: on a stream with at least n bytes it
succeeds and leaves exactly the bytes past the first n, on a shorter stream
it fails with UnexpectedEof. -/
def Consumes {α : Type} (r : Read α) (n : Nat) : Prop :=
  ∀ bs : List Nat,
    (n ≤ bs.length → ∃ a, r bs = Except.ok (a, bs.drop n)) ∧
    (bs.length < n → r bs = Except.error IoErrorKind.unexpectedEof)

/-- A TrainingData reader consumes exactly n bytes on sufficient input and
returns a record whose version field is v. -/
def ConsumesTo (r : Read TrainingData) (n v : Nat) : Prop :=
  ∀ bs : List Nat, n ≤ bs.length →
    ∃ td, r bs = Except.ok (td, bs.drop n) ∧ td.version = v

/-- The record decoded from a stream whose bytes are all zero after the
4-byte version field: every numeric field is zero and the version is v. -/
def zero_training_data (v : Nat) : TrainingData :=
  { version := v
    input_format := 0
    probabilities := List.replicate 1858 0
    planes := List.replicate 104 0
    castling_us_ooo := 0
    castling_us_oo := 0
    castling_them_ooo := 0
    castling_them_oo := 0
    side_to_move_or_enpassant := 0
    rule50_count := 0
    invariance_info := 0
    dummy := 0
    root_q := 0
    best_q := 0
    root_d := 0
    best_d := 0
    root_m := 0
    best_m := 0
    plies_left := 0
    result_q := 0
    result_d := 0
    played_q := 0
    played_d := 0
    played_m := 0
    orig_q := 0
    orig_d := 0
    orig_m := 0
    visits := 0
    played_idx := 0
    best_idx := 0
    policy_kld := 0
    reserved := 0 }

theorem testBit_repPat (p pat : Nat) (hpat : pat < 2 ^ p) :
    ∀ (q m r : Nat), r < p →
      Nat.testBit (repPat p pat m) (p * q + r) = (decide (q < m) && Nat.testBit pat r) := by
  intro q
  induction q with
  | zero =>
    intro m r hr
    cases m with
    | zero => simp [repPat]
    | succ m =>
      simp only [repPat, Nat.mul_zero, Nat.zero_add]
      have hmod : (pat + 2 ^ p * repPat p pat m) % 2 ^ p = pat := by
        rw [Nat.add_mul_mod_self_left]
        exact Nat.mod_eq_of_lt hpat
      have h := Nat.testBit_mod_two_pow (pat + 2 ^ p * repPat p pat m) p r
      rw [hmod] at h
      simp only [hr, decide_True, Bool.true_and] at h
      simp [← h]
  | succ q ih =>
    intro m r hr
    cases m with
    | zero => simp [repPat]
    | succ m =>
      simp only [repPat]
      have hdiv : (pat + 2 ^ p * repPat p pat m) >>> p = repPat p pat m := by
        rw [Nat.shiftRight_eq_div_pow]
        rw [Nat.add_mul_div_left _ _ (Nat.pos_pow_of_pos p (by norm_num))]
        rw [Nat.div_eq_of_lt hpat, Nat.zero_add]
      have hidx : p * (q + 1) + r = p + (p * q + r) := by ring
      rw [hidx, ← Nat.testBit_shiftRight, hdiv, ih m r hr]
      simp [Nat.succ_lt_succ_iff]

theorem testBit_mask1 (n : Nat) :
    Nat.testBit 0x5555555555555555 n = decide (n < 64 ∧ n % 2 = 0) := by
  have e : (0x5555555555555555 : Nat) = repPat 2 1 32 := by decide
  have h := testBit_repPat 2 1 (by norm_num) (n / 2) 32 (n % 2)
    (Nat.mod_lt _ (by norm_num))
  rw [Nat.div_add_mod] at h
  rw [e, h]
  have h1 : Nat.testBit 1 (n % 2) = decide (n % 2 = 0) := by
    rcases Nat.mod_two_eq_zero_or_one n with h2 | h2 <;> rw [h2] <;> decide
  rw [h1, ← Bool.decide_and]
  exact decide_eq_decide.mpr (by omega)

theorem testBit_mask2 (n : Nat) :
    Nat.testBit 0x3333333333333333 n = decide (n < 64 ∧ n % 4 < 2) := by
  have e : (0x3333333333333333 : Nat) = repPat 4 3 16 := by decide
  have h := testBit_repPat 4 3 (by norm_num) (n / 4) 16 (n % 4)
    (Nat.mod_lt _ (by norm_num))
  rw [Nat.div_add_mod] at h
  rw [e, h]
  have h1 : Nat.testBit 3 (n % 4) = decide (n % 4 < 2) := by
    rw [show (3 : Nat) = 2 ^ 2 - 1 from rfl, Nat.testBit_two_pow_sub_one]
  rw [h1, ← Bool.decide_and]
  exact decide_eq_decide.mpr (by omega)

theorem testBit_mask4 (n : Nat) :
    Nat.testBit 0x0F0F0F0F0F0F0F0F n = decide (n < 64 ∧ n % 8 < 4) := by
  have e : (0x0F0F0F0F0F0F0F0F : Nat) = repPat 8 15 8 := by decide
  have h := testBit_repPat 8 15 (by norm_num) (n / 8) 8 (n % 8)
    (Nat.mod_lt _ (by norm_num))
  rw [Nat.div_add_mod] at h
  rw [e, h]
  have h1 : Nat.testBit 15 (n % 8) = decide (n % 8 < 4) := by
    rw [show (15 : Nat) = 2 ^ 4 - 1 from rfl, Nat.testBit_two_pow_sub_one]
  rw [h1, ← Bool.decide_and]
  exact decide_eq_decide.mpr (by omega)

theorem and_shl_mod_64 (x M k : Nat) (h : M <<< k < 2 ^ 64) :
    ((x &&& M) <<< k) % 2 ^ 64 = (x &&& M) <<< k := by
  apply Nat.mod_eq_of_lt
  calc (x &&& M) <<< k ≤ M <<< k := by
        rw [Nat.shiftLeft_eq, Nat.shiftLeft_eq]
        exact Nat.mul_le_mul_right _ Nat.and_le_right
    _ < 2 ^ 64 := h

theorem stage1_testBit (x i : Nat) (hi : i < 64) :
    Nat.testBit (((x >>> 1) &&& 0x5555555555555555) |||
      (((x &&& 0x5555555555555555) <<< 1) % 2 ^ 64)) i =
    Nat.testBit x (if i % 2 = 0 then i + 1 else i - 1) := by
  rw [and_shl_mod_64 _ _ _ (by decide)]
  simp only [Nat.testBit_lor, Nat.testBit_land, Nat.testBit_shiftRight,
    Nat.testBit_shiftLeft, testBit_mask1]
  by_cases hp : i % 2 = 0
  · rcases Nat.eq_zero_or_pos i with h0 | h1
    · subst h0; simp
    · have e1 : (i - 1) % 2 = 1 := by omega
      simp [hp, hi, e1, Nat.add_comm]
  · have h1 : 1 ≤ i := by omega
    have e1 : (i - 1) % 2 = 0 := by omega
    have e2 : i - 1 < 64 := by omega
    simp [hp, hi, e1, e2, h1]

theorem stage2_testBit (x i : Nat) (hi : i < 64) :
    Nat.testBit (((x >>> 2) &&& 0x3333333333333333) |||
      (((x &&& 0x3333333333333333) <<< 2) % 2 ^ 64)) i =
    Nat.testBit x (if i % 4 < 2 then i + 2 else i - 2) := by
  rw [and_shl_mod_64 _ _ _ (by decide)]
  simp only [Nat.testBit_lor, Nat.testBit_land, Nat.testBit_shiftRight,
    Nat.testBit_shiftLeft, testBit_mask2]
  by_cases hp : i % 4 < 2
  · by_cases h2 : 2 ≤ i
    · have e1 : ¬((i - 2) % 4 < 2) := by omega
      simp [hp, hi, e1, h2, Nat.add_comm]
    · simp [hp, hi, h2, Nat.add_comm]
  · have h2 : 2 ≤ i := by omega
    have e1 : (i - 2) % 4 < 2 := by omega
    have e2 : i - 2 < 64 := by omega
    simp [hp, hi, h2, e1, e2]

theorem stage4_testBit (x i : Nat) (hi : i < 64) :
    Nat.testBit (((x >>> 4) &&& 0x0F0F0F0F0F0F0F0F) |||
      (((x &&& 0x0F0F0F0F0F0F0F0F) <<< 4) % 2 ^ 64)) i =
    Nat.testBit x (if i % 8 < 4 then i + 4 else i - 4) := by
  rw [and_shl_mod_64 _ _ _ (by decide)]
  simp only [Nat.testBit_lor, Nat.testBit_land, Nat.testBit_shiftRight,
    Nat.testBit_shiftLeft, testBit_mask4]
  by_cases hp : i % 8 < 4
  · by_cases h2 : 4 ≤ i
    · have e1 : ¬((i - 4) % 8 < 4) := by omega
      simp [hp, hi, e1, h2, Nat.add_comm]
    · simp [hp, hi, h2, Nat.add_comm]
  · have h2 : 4 ≤ i := by omega
    have e1 : (i - 4) % 8 < 4 := by omega
    have e2 : i - 4 < 64 := by omega
    simp [hp, hi, h2, e1, e2]

theorem reverse_testBit (x i : Nat) (hi : i < 64) :
    Nat.testBit (reverse_bits_in_bytes x) i =
      Nat.testBit x (8 * (i / 8) + (7 - i % 8)) := by
  simp only [reverse_bits_in_bytes]
  rw [stage4_testBit _ _ hi]
  by_cases h4 : i % 8 < 4
  · rw [if_pos h4]
    rw [stage2_testBit _ _ (by omega)]
    rw [show (i + 4) % 4 = i % 4 from by omega]
    by_cases h2 : i % 4 < 2
    · rw [if_pos h2]
      rw [stage1_testBit _ _ (by omega)]
      rw [show (i + 4 + 2) % 2 = i % 2 from by omega]
      by_cases h1 : i % 2 = 0
      · rw [if_pos h1]; congr 1; omega
      · rw [if_neg h1]; congr 1; omega
    · rw [if_neg h2]
      rw [stage1_testBit _ _ (by omega)]
      rw [show (i + 4 - 2) % 2 = i % 2 from by omega]
      by_cases h1 : i % 2 = 0
      · rw [if_pos h1]; congr 1; omega
      · rw [if_neg h1]; congr 1; omega
  · rw [if_neg h4]
    rw [stage2_testBit _ _ (by omega)]
    rw [show (i - 4) % 4 = i % 4 from by omega]
    by_cases h2 : i % 4 < 2
    · rw [if_pos h2]
      rw [stage1_testBit _ _ (by omega)]
      rw [show (i - 4 + 2) % 2 = i % 2 from by omega]
      by_cases h1 : i % 2 = 0
      · rw [if_pos h1]; congr 1; omega
      · rw [if_neg h1]; congr 1; omega
    · rw [if_neg h2]
      rw [stage1_testBit _ _ (by omega)]
      rw [show (i - 4 - 2) % 2 = i % 2 from by omega]
      by_cases h1 : i % 2 = 0
      · rw [if_pos h1]; congr 1; omega
      · rw [if_neg h1]; congr 1; omega

theorem reverse_lt (x : Nat) : reverse_bits_in_bytes x < 2 ^ 64 := by
  simp only [reverse_bits_in_bytes]
  exact Nat.or_lt_two_pow (Nat.and_lt_two_pow _ (by norm_num))
    (Nat.mod_lt _ (by norm_num))

/-- C5: the bit-order corrector is an involution: for every 64-bit value x,
reverse_bits_in_bytes (reverse_bits_in_bytes x) = x. -/
theorem c5_reverse_involution (x : Nat) (hx : x < 2 ^ 64) :
    reverse_bits_in_bytes (reverse_bits_in_bytes x) = x := by
  apply Nat.eq_of_testBit_eq
  intro i
  by_cases hi : i < 64
  · rw [reverse_testBit _ _ hi, reverse_testBit _ _ (by omega)]
    congr 1
    omega
  · have h64 : (2 : Nat) ^ 64 ≤ 2 ^ i :=
      Nat.pow_le_pow_right (by norm_num) (by omega)
    rw [Nat.testBit_lt_two_pow (lt_of_lt_of_le (reverse_lt _) h64),
      Nat.testBit_lt_two_pow (lt_of_lt_of_le hx h64)]

/-- Witness for C5 at the concrete 64-bit value 0x0123456789ABCDEF. -/
theorem c5_reverse_involution_witness :
    reverse_bits_in_bytes (reverse_bits_in_bytes 0x0123456789ABCDEF) =
      0x0123456789ABCDEF :=
  c5_reverse_involution 0x0123456789ABCDEF (by norm_num)

/-- C10: the bit-order corrector never moves a bit across a byte boundary:
byte j of reverse_bits_in_bytes x is a function of byte j of x alone. -/
theorem c10_reverse_byte_local (x y j : Nat) (hj : j < 8)
    (h : (x >>> (8 * j)) % 2 ^ 8 = (y >>> (8 * j)) % 2 ^ 8) :
    (reverse_bits_in_bytes x >>> (8 * j)) % 2 ^ 8 =
      (reverse_bits_in_bytes y >>> (8 * j)) % 2 ^ 8 := by
  apply Nat.eq_of_testBit_eq
  intro r
  rw [Nat.testBit_mod_two_pow, Nat.testBit_mod_two_pow,
    Nat.testBit_shiftRight, Nat.testBit_shiftRight]
  by_cases hr : r < 8
  · have hidx : 8 * j + r < 64 := by omega
    rw [reverse_testBit _ _ hidx, reverse_testBit _ _ hidx]
    rw [show 8 * ((8 * j + r) / 8) + (7 - (8 * j + r) % 8) = 8 * j + (7 - r)
      from by omega]
    have hx : Nat.testBit x (8 * j + (7 - r)) =
        Nat.testBit ((x >>> (8 * j)) % 2 ^ 8) (7 - r) := by
      rw [Nat.testBit_mod_two_pow, Nat.testBit_shiftRight]
      simp [show 7 - r < 8 from by omega]
    have hy : Nat.testBit y (8 * j + (7 - r)) =
        Nat.testBit ((y >>> (8 * j)) % 2 ^ 8) (7 - r) := by
      rw [Nat.testBit_mod_two_pow, Nat.testBit_shiftRight]
      simp [show 7 - r < 8 from by omega]
    rw [hx, hy, h]
  · simp [hr]

/-- Witness for C10 at x = 0, y = 256, j = 0 (equal low bytes). -/
theorem c10_reverse_byte_local_witness :
    (reverse_bits_in_bytes 0 >>> (8 * 0)) % 2 ^ 8 =
      (reverse_bits_in_bytes 256 >>> (8 * 0)) % 2 ^ 8 :=
  c10_reverse_byte_local 0 256 0 (by norm_num) (by norm_num)

theorem Read.bind_def {α β : Type} (r : Read α) (f : α → Read β) (bs : List Nat) :
    (r >>= f) bs =
      match r bs with
      | Except.ok (a, rest) => f a rest
      | Except.error e => Except.error e := rfl

theorem Read.pure_def {α : Type} (a : α) (bs : List Nat) :
    (pure a : Read α) bs = Except.ok (a, bs) := rfl


theorem readBytes_ok : ∀ (n : Nat) (bs : List Nat), n ≤ bs.length →
    readBytes n bs = Except.ok (bs.take n, bs.drop n) := by
  intro n
  induction n with
  | zero => intro bs h; simp [readBytes]
  | succ n ih =>
    intro bs h
    cases bs with
    | nil => simp at h
    | cons b bs =>
      simp only [readBytes]
      rw [ih bs (by simpa using h)]
      rfl

theorem readBytes_eof : ∀ (n : Nat) (bs : List Nat), bs.length < n →
    readBytes n bs = Except.error IoErrorKind.unexpectedEof := by
  intro n
  induction n with
  | zero => intro bs h; exact absurd h (Nat.not_lt_zero _)
  | succ n ih =>
    intro bs h
    cases bs with
    | nil => rfl
    | cons b bs =>
      simp only [readBytes]
      rw [ih bs (by simpa using h)]

theorem readLE_ok (n : Nat) (bs : List Nat) (h : n ≤ bs.length) :
    readLE n bs = Except.ok (leVal (bs.take n), bs.drop n) := by
  simp only [readLE]
  rw [readBytes_ok n bs h]

theorem readLE_eof (n : Nat) (bs : List Nat) (h : bs.length < n) :
    readLE n bs = Except.error IoErrorKind.unexpectedEof := by
  simp only [readLE]
  rw [readBytes_eof n bs h]

theorem consumes_readLE (n : Nat) : Consumes (readLE n) n := by
  intro bs
  constructor
  · intro h
    exact ⟨leVal (bs.take n), readLE_ok n bs h⟩
  · intro h
    exact readLE_eof n bs h

theorem consumes_pure {α : Type} (a : α) : Consumes (pure a : Read α) 0 := by
  intro bs
  constructor
  · intro _
    exact ⟨a, by rw [Read.pure_def]; simp⟩
  · intro h
    exact absurd h (Nat.not_lt_zero _)

theorem consumes_bind {α β : Type} {r : Read α} {f : α → Read β} {m k : Nat}
    (hr : Consumes r m) (hf : ∀ a, Consumes (f a) k) :
    Consumes (r >>= f) (m + k) := by
  intro bs
  constructor
  · intro h
    obtain ⟨a, ha⟩ := (hr bs).1 (by omega)
    obtain ⟨b, hb⟩ := (hf a (bs.drop m)).1 (by rw [List.length_drop]; omega)
    exact ⟨b, by simp only [Read.bind_def, ha, hb, List.drop_drop]⟩
  · intro h
    by_cases hm : bs.length < m
    · simp only [Read.bind_def, (hr bs).2 hm]
    · obtain ⟨a, ha⟩ := (hr bs).1 (by omega)
      simp only [Read.bind_def, ha]
      exact (hf a (bs.drop m)).2 (by rw [List.length_drop]; omega)

theorem consumes_readVec (size : Nat) :
    ∀ count, Consumes (readVec size count) (size * count) := by
  intro count
  induction count with
  | zero =>
    rw [show size * 0 = 0 from by ring]
    exact consumes_pure []
  | succ c ih =>
    rw [show size * (c + 1) = size + (size * c + 0) from by ring]
    simp only [readVec]
    refine consumes_bind (consumes_readLE _) fun v => ?_
    refine consumes_bind ih fun rest => ?_
    exact consumes_pure _

theorem consumes_readPlanes :
    ∀ count, Consumes (readPlanes count) (8 * count) := by
  intro count
  induction count with
  | zero =>
    rw [show 8 * 0 = 0 from by ring]
    exact consumes_pure []
  | succ c ih =>
    rw [show 8 * (c + 1) = 8 + (8 * c + 0) from by ring]
    simp only [readPlanes]
    refine consumes_bind (consumes_readLE _) fun v => ?_
    refine consumes_bind ih fun rest => ?_
    exact consumes_pure _

theorem read_from_consumes : Consumes TrainingData.read_from 8356 := by
  rw [show (8356 : Nat) = 4 + (4 + (4 * 1858 + (8 * 104 + (1 + (1 + (1 + (1 + (1 + (1 + (1 + (1 + (4 + (4 + (4 + (4 + (4 + (4 + (4 + (4 + (4 + (4 + (4 + (4 + (4 + (4 + (4 + (4 + (2 + (2 + (4 + (4 + (0)))))))))))))))))))))))))))))))) from by norm_num]
  unfold TrainingData.read_from
  refine consumes_bind (consumes_readLE _) fun version => ?_
  refine consumes_bind (consumes_readLE _) fun input_format => ?_
  refine consumes_bind (consumes_readVec _ _) fun probabilities => ?_
  refine consumes_bind (consumes_readPlanes _) fun planes => ?_
  refine consumes_bind (consumes_readLE _) fun a => ?_
  refine consumes_bind (consumes_readLE _) fun a => ?_
  refine consumes_bind (consumes_readLE _) fun a => ?_
  refine consumes_bind (consumes_readLE _) fun a => ?_
  refine consumes_bind (consumes_readLE _) fun a => ?_
  refine consumes_bind (consumes_readLE _) fun a => ?_
  refine consumes_bind (consumes_readLE _) fun a => ?_
  refine consumes_bind (consumes_readLE _) fun a => ?_
  refine consumes_bind (consumes_readLE _) fun a => ?_
  refine consumes_bind (consumes_readLE _) fun a => ?_
  refine consumes_bind (consumes_readLE _) fun a => ?_
  refine consumes_bind (consumes_readLE _) fun a => ?_
  refine consumes_bind (consumes_readLE _) fun a => ?_
  refine consumes_bind (consumes_readLE _) fun a => ?_
  refine consumes_bind (consumes_readLE _) fun a => ?_
  refine consumes_bind (consumes_readLE _) fun a => ?_
  refine consumes_bind (consumes_readLE _) fun a => ?_
  refine consumes_bind (consumes_readLE _) fun a => ?_
  refine consumes_bind (consumes_readLE _) fun a => ?_
  refine consumes_bind (consumes_readLE _) fun a => ?_
  refine consumes_bind (consumes_readLE _) fun a => ?_
  refine consumes_bind (consumes_readLE _) fun a => ?_
  refine consumes_bind (consumes_readLE _) fun a => ?_
  refine consumes_bind (consumes_readLE _) fun a => ?_
  refine consumes_bind (consumes_readLE _) fun a => ?_
  refine consumes_bind (consumes_readLE _) fun a => ?_
  refine consumes_bind (consumes_readLE _) fun a => ?_
  refine consumes_bind (consumes_readLE _) fun a => ?_
  exact consumes_pure _

theorem consumesTo_pure (td : TrainingData) :
    ConsumesTo (pure td) 0 td.version := by
  intro bs h
  exact ⟨td, by rw [Read.pure_def]; simp, rfl⟩

theorem consumesTo_bind {α : Type} {r : Read α} {f : α → Read TrainingData}
    {m k v : Nat} (hr : Consumes r m) (hf : ∀ a, ConsumesTo (f a) k v) :
    ConsumesTo (r >>= f) (m + k) v := by
  intro bs h
  obtain ⟨a, ha⟩ := (hr bs).1 (by omega)
  obtain ⟨td, htd, hv⟩ := hf a (bs.drop m) (by rw [List.length_drop]; omega)
  refine ⟨td, ?_, hv⟩
  simp only [Read.bind_def, ha, htd, List.drop_drop]

theorem bind_readLE_ok {α : Type} (n : Nat) (f : Nat → Read α) (bs : List Nat)
    (h : n ≤ bs.length) :
    (readLE n >>= f) bs = f (leVal (bs.take n)) (bs.drop n) := by
  simp only [Read.bind_def, readLE_ok n bs h]

theorem spec_of_first_readLE (K : Nat → Read TrainingData) (bs : List Nat)
    (k : Nat) (hK : ∀ v, ConsumesTo (K v) k v) (h : 4 + k ≤ bs.length) :
    ∃ td, (readLE 4 >>= K) bs = Except.ok (td, bs.drop (4 + k)) ∧
      td.version = leVal (bs.take 4) := by
  rw [bind_readLE_ok 4 K bs (by omega)]
  obtain ⟨td, htd, hv⟩ := hK (leVal (bs.take 4)) (bs.drop 4)
    (by rw [List.length_drop]; omega)
  refine ⟨td, ?_, hv⟩
  rw [htd, List.drop_drop]

theorem read_from_spec (bs : List Nat) (h : 8356 ≤ bs.length) :
    ∃ td, TrainingData.read_from bs = Except.ok (td, bs.drop 8356) ∧
      td.version = leVal (bs.take 4) := by
  unfold TrainingData.read_from
  rw [show (8356 : Nat) = 4 + 8352 from by norm_num] at h ⊢
  apply spec_of_first_readLE
  · intro v
    rw [show (8352 : Nat) = 4 + (4 * 1858 + (8 * 104 + (1 + (1 + (1 + (1 + (1 + (1 + (1 + (1 + (4 + (4 + (4 + (4 + (4 + (4 + (4 + (4 + (4 + (4 + (4 + (4 + (4 + (4 + (4 + (4 + (2 + (2 + (4 + (4 + (0))))))))))))))))))))))))))))))) from by norm_num]
    refine consumesTo_bind (consumes_readLE _) fun input_format => ?_
    refine consumesTo_bind (consumes_readVec _ _) fun probabilities => ?_
    refine consumesTo_bind (consumes_readPlanes _) fun planes => ?_
    refine consumesTo_bind (consumes_readLE _) fun a => ?_
    refine consumesTo_bind (consumes_readLE _) fun a => ?_
    refine consumesTo_bind (consumes_readLE _) fun a => ?_
    refine consumesTo_bind (consumes_readLE _) fun a => ?_
    refine consumesTo_bind (consumes_readLE _) fun a => ?_
    refine consumesTo_bind (consumes_readLE _) fun a => ?_
    refine consumesTo_bind (consumes_readLE _) fun a => ?_
    refine consumesTo_bind (consumes_readLE _) fun a => ?_
    refine consumesTo_bind (consumes_readLE _) fun a => ?_
    refine consumesTo_bind (consumes_readLE _) fun a => ?_
    refine consumesTo_bind (consumes_readLE _) fun a => ?_
    refine consumesTo_bind (consumes_readLE _) fun a => ?_
    refine consumesTo_bind (consumes_readLE _) fun a => ?_
    refine consumesTo_bind (consumes_readLE _) fun a => ?_
    refine consumesTo_bind (consumes_readLE _) fun a => ?_
    refine consumesTo_bind (consumes_readLE _) fun a => ?_
    refine consumesTo_bind (consumes_readLE _) fun a => ?_
    refine consumesTo_bind (consumes_readLE _) fun a => ?_
    refine consumesTo_bind (consumes_readLE _) fun a => ?_
    refine consumesTo_bind (consumes_readLE _) fun a => ?_
    refine consumesTo_bind (consumes_readLE _) fun a => ?_
    refine consumesTo_bind (consumes_readLE _) fun a => ?_
    refine consumesTo_bind (consumes_readLE _) fun a => ?_
    refine consumesTo_bind (consumes_readLE _) fun a => ?_
    refine consumesTo_bind (consumes_readLE _) fun a => ?_
    refine consumesTo_bind (consumes_readLE _) fun a => ?_
    refine consumesTo_bind (consumes_readLE _) fun a => ?_
    refine consumesTo_bind (consumes_readLE _) fun a => ?_
    exact consumesTo_pure _
  · exact h

theorem read_from_eof (bs : List Nat) (h : bs.length < 8356) :
    TrainingData.read_from bs = Except.error IoErrorKind.unexpectedEof :=
  (read_from_consumes bs).2 h

theorem reverse_zero : reverse_bits_in_bytes 0 = 0 := by decide

theorem leVal_replicate_zero : ∀ n, leVal (List.replicate n 0) = 0 := by
  intro n
  induction n with
  | zero => rfl
  | succ n ih => simp [List.replicate_succ, leVal, ih]

theorem readBytes_zeros : ∀ (n m : Nat), n ≤ m →
    readBytes n (List.replicate m 0) =
      Except.ok (List.replicate n 0, List.replicate (m - n) 0) := by
  intro n
  induction n with
  | zero => intro m h; simp [readBytes]
  | succ n ih =>
    intro m h
    cases m with
    | zero => omega
    | succ m =>
      rw [List.replicate_succ]
      simp only [readBytes]
      rw [ih m (by omega)]
      rw [show m + 1 - (n + 1) = m - n from by omega]
      simp [List.replicate_succ]

theorem readLE_zeros (n m : Nat) (h : n ≤ m) :
    readLE n (List.replicate m 0) = Except.ok (0, List.replicate (m - n) 0) := by
  simp only [readLE]
  rw [readBytes_zeros n m h]
  simp [leVal_replicate_zero]

theorem bind_readLE_zeros {α : Type} (n m : Nat) (f : Nat → Read α)
    (h : n ≤ m) :
    (readLE n >>= f) (List.replicate m 0) = f 0 (List.replicate (m - n) 0) := by
  simp only [Read.bind_def, readLE_zeros n m h]

theorem readVec_zeros (size : Nat) : ∀ (count m : Nat), size * count ≤ m →
    readVec size count (List.replicate m 0) =
      Except.ok (List.replicate count 0, List.replicate (m - size * count) 0) := by
  intro count
  induction count with
  | zero => intro m h; simp [readVec, Read.pure_def]
  | succ c ih =>
    intro m h
    have hmul : size * (c + 1) = size * c + size := Nat.mul_succ size c
    have hs : size ≤ m := by omega
    simp only [readVec]
    rw [bind_readLE_zeros _ _ _ hs]
    simp only [Read.bind_def]
    rw [ih (m - size) (by omega)]
    simp only [Read.pure_def]
    rw [show m - size - size * c = m - size * (c + 1) from by omega]
    rw [← List.replicate_succ]

theorem readPlanes_zeros : ∀ (count m : Nat), 8 * count ≤ m →
    readPlanes count (List.replicate m 0) =
      Except.ok (List.replicate count 0, List.replicate (m - 8 * count) 0) := by
  intro count
  induction count with
  | zero => intro m h; simp [readPlanes, Read.pure_def]
  | succ c ih =>
    intro m h
    have hmul : 8 * (c + 1) = 8 * c + 8 := Nat.mul_succ 8 c
    have hs : 8 ≤ m := by omega
    simp only [readPlanes]
    rw [bind_readLE_zeros _ _ _ hs]
    simp only [Read.bind_def]
    rw [ih (m - 8) (by omega)]
    simp only [Read.pure_def, reverse_zero]
    rw [show m - 8 - 8 * c = m - 8 * (c + 1) from by omega]
    rw [← List.replicate_succ]

theorem readLE_four_cons (b0 b1 b2 b3 : Nat) (rest : List Nat) :
    readLE 4 (b0 :: b1 :: b2 :: b3 :: rest) =
      Except.ok (b0 + 256 * (b1 + 256 * (b2 + 256 * (b3 + 256 * 0))), rest) := rfl

theorem bind_readLE_four {α : Type} (b0 b1 b2 b3 : Nat) (rest : List Nat)
    (f : Nat → Read α) :
    (readLE 4 >>= f) (b0 :: b1 :: b2 :: b3 :: rest) =
      f (b0 + 256 * (b1 + 256 * (b2 + 256 * (b3 + 256 * 0)))) rest := by
  rw [Read.bind_def, readLE_four_cons]

theorem bind_readVec_zeros {α : Type} (size count m : Nat) (f : List Nat → Read α)
    (h : size * count ≤ m) :
    (readVec size count >>= f) (List.replicate m 0) =
      f (List.replicate count 0) (List.replicate (m - size * count) 0) := by
  rw [Read.bind_def, readVec_zeros size count m h]

theorem bind_readPlanes_zeros {α : Type} (count m : Nat) (f : List Nat → Read α)
    (h : 8 * count ≤ m) :
    (readPlanes count >>= f) (List.replicate m 0) =
      f (List.replicate count 0) (List.replicate (m - 8 * count) 0) := by
  rw [Read.bind_def, readPlanes_zeros count m h]

theorem read_from_zero_tail (b0 b1 b2 b3 : Nat) :
    TrainingData.read_from (b0 :: b1 :: b2 :: b3 :: List.replicate 8352 0) =
      Except.ok
        (zero_training_data
          (b0 + 256 * (b1 + 256 * (b2 + 256 * (b3 + 256 * 0)))), []) := by
  unfold TrainingData.read_from
  rw [bind_readLE_four]
  rw [bind_readLE_zeros 4 8352 _ (by norm_num), show (8352:Nat) - 4 = 8348 from by norm_num]
  rw [bind_readVec_zeros 4 1858 8348 _ (by norm_num), show (8348:Nat) - 4 * 1858 = 916 from by norm_num]
  rw [bind_readPlanes_zeros 104 916 _ (by norm_num), show (916:Nat) - 8 * 104 = 84 from by norm_num]
  rw [bind_readLE_zeros 1 84 _ (by norm_num), show (84:Nat) - 1 = 83 from by norm_num]
  rw [bind_readLE_zeros 1 83 _ (by norm_num), show (83:Nat) - 1 = 82 from by norm_num]
  rw [bind_readLE_zeros 1 82 _ (by norm_num), show (82:Nat) - 1 = 81 from by norm_num]
  rw [bind_readLE_zeros 1 81 _ (by norm_num), show (81:Nat) - 1 = 80 from by norm_num]
  rw [bind_readLE_zeros 1 80 _ (by norm_num), show (80:Nat) - 1 = 79 from by norm_num]
  rw [bind_readLE_zeros 1 79 _ (by norm_num), show (79:Nat) - 1 = 78 from by norm_num]
  rw [bind_readLE_zeros 1 78 _ (by norm_num), show (78:Nat) - 1 = 77 from by norm_num]
  rw [bind_readLE_zeros 1 77 _ (by norm_num), show (77:Nat) - 1 = 76 from by norm_num]
  rw [bind_readLE_zeros 4 76 _ (by norm_num), show (76:Nat) - 4 = 72 from by norm_num]
  rw [bind_readLE_zeros 4 72 _ (by norm_num), show (72:Nat) - 4 = 68 from by norm_num]
  rw [bind_readLE_zeros 4 68 _ (by norm_num), show (68:Nat) - 4 = 64 from by norm_num]
  rw [bind_readLE_zeros 4 64 _ (by norm_num), show (64:Nat) - 4 = 60 from by norm_num]
  rw [bind_readLE_zeros 4 60 _ (by norm_num), show (60:Nat) - 4 = 56 from by norm_num]
  rw [bind_readLE_zeros 4 56 _ (by norm_num), show (56:Nat) - 4 = 52 from by norm_num]
  rw [bind_readLE_zeros 4 52 _ (by norm_num), show (52:Nat) - 4 = 48 from by norm_num]
  rw [bind_readLE_zeros 4 48 _ (by norm_num), show (48:Nat) - 4 = 44 from by norm_num]
  rw [bind_readLE_zeros 4 44 _ (by norm_num), show (44:Nat) - 4 = 40 from by norm_num]
  rw [bind_readLE_zeros 4 40 _ (by norm_num), show (40:Nat) - 4 = 36 from by norm_num]
  rw [bind_readLE_zeros 4 36 _ (by norm_num), show (36:Nat) - 4 = 32 from by norm_num]
  rw [bind_readLE_zeros 4 32 _ (by norm_num), show (32:Nat) - 4 = 28 from by norm_num]
  rw [bind_readLE_zeros 4 28 _ (by norm_num), show (28:Nat) - 4 = 24 from by norm_num]
  rw [bind_readLE_zeros 4 24 _ (by norm_num), show (24:Nat) - 4 = 20 from by norm_num]
  rw [bind_readLE_zeros 4 20 _ (by norm_num), show (20:Nat) - 4 = 16 from by norm_num]
  rw [bind_readLE_zeros 4 16 _ (by norm_num), show (16:Nat) - 4 = 12 from by norm_num]
  rw [bind_readLE_zeros 2 12 _ (by norm_num), show (12:Nat) - 2 = 10 from by norm_num]
  rw [bind_readLE_zeros 2 10 _ (by norm_num), show (10:Nat) - 2 = 8 from by norm_num]
  rw [bind_readLE_zeros 4 8 _ (by norm_num), show (8:Nat) - 4 = 4 from by norm_num]
  rw [bind_readLE_zeros 4 4 _ (by norm_num), show (4:Nat) - 4 = 0 from by norm_num]
  rw [Read.pure_def]
  rfl

/-- C9: decoding a record of all-zero bytes except format_version = 6
succeeds without error and every numeric field of the decoded record — input
format, the 1858 move probabilities, the 104 bitboards after bit-order
correction, castling flags, side-to-move, rule-50 count, the value/draw/
moves-left statistics, visit count and move indices — is zero. -/
theorem c9_zero_record_decodes :
    TrainingData.read_from (6 :: 0 :: 0 :: 0 :: List.replicate 8352 0) =
      Except.ok (zero_training_data 6, []) := by
  have h := read_from_zero_tail 6 0 0 0
  norm_num at h
  exact h

/-- C8: for every byte source holding at least one full record, a successful
single-record decode consumes exactly 4 + 4 + 1858*4 + 104*8 + 4 + 4 + 15*4 +
4 + 2 + 2 + 4 + 4 = 8356 bytes, leaving exactly the subsequent bytes of the
source unread and unchanged. -/
theorem c8_record_size_consumed (bs : List Nat)
    (h : 4 + 4 + 1858 * 4 + 104 * 8 + 4 + 4 + 15 * 4 + 4 + 2 + 2 + 4 + 4 ≤
      bs.length) :
    ∃ td, TrainingData.read_from bs =
      Except.ok (td, bs.drop
        (4 + 4 + 1858 * 4 + 104 * 8 + 4 + 4 + 15 * 4 + 4 + 2 + 2 + 4 + 4)) := by
  rw [show (4 + 4 + 1858 * 4 + 104 * 8 + 4 + 4 + 15 * 4 + 4 + 2 + 2 + 4 + 4 :
    Nat) = 8356 from by norm_num] at h ⊢
  obtain ⟨td, htd, hv⟩ := read_from_spec bs h
  exact ⟨td, htd⟩

/-- Witness for C8 on a concrete 8356-byte source. -/
theorem c8_record_size_consumed_witness :
    ∃ td, TrainingData.read_from (List.replicate 8356 0) =
      Except.ok (td, (List.replicate 8356 0).drop
        (4 + 4 + 1858 * 4 + 104 * 8 + 4 + 4 + 15 * 4 + 4 + 2 + 2 + 4 + 4)) :=
  c8_record_size_consumed (List.replicate 8356 0)
    (by rw [List.length_replicate])

/-- C1 counterexample: a record whose format_version field decodes to 5 is
decoded successfully by read_from — no version-mismatch failure occurs, and
all remaining bytes of the record are interpreted into fields. -/
theorem c1_counterexample_version5_decode_succeeds :
    TrainingData.read_from (5 :: 0 :: 0 :: 0 :: List.replicate 8352 0) =
      Except.ok (zero_training_data 5, []) := by
  have h := read_from_zero_tail 5 0 0 0
  norm_num at h
  exact h

/-- C1 (amended): the record decoder performs no version gate at all: for any
format_version value, read_from succeeds and interprets all remaining bytes
of the record; the only version check in the program is the assertion in main
(assert_eq on version = 6), applied to each printed record, which holds
exactly when the decoded version is 6. -/
theorem c1_amended_no_version_gate_in_decoder (bs : List Nat)
    (h : 8356 ≤ bs.length) :
    ∃ td, TrainingData.read_from bs = Except.ok (td, bs.drop 8356) ∧
      td.version = leVal (bs.take 4) ∧
      (main_version_check td = true ↔ leVal (bs.take 4) = 6) := by
  obtain ⟨td, htd, hv⟩ := read_from_spec bs h
  refine ⟨td, htd, hv, ?_⟩
  simp [main_version_check, hv]

/-- Witness for the amended C1 on a concrete version-5 record. -/
theorem c1_amended_witness :
    8356 ≤ (5 :: List.replicate 8355 (0 : Nat)).length ∧
    ∃ td, TrainingData.read_from (5 :: List.replicate 8355 0) =
      Except.ok (td, (5 :: List.replicate 8355 0).drop 8356) ∧
      td.version = leVal ((5 :: List.replicate 8355 0).take 4) ∧
      (main_version_check td = true ↔
        leVal ((5 :: List.replicate 8355 0).take 4) = 6) :=
  ⟨by rw [List.length_cons, List.length_replicate],
    c1_amended_no_version_gate_in_decoder _
      (by rw [List.length_cons, List.length_replicate])⟩

theorem gz_go_spec : ∀ (recs : List (List Nat)) (fuel : Nat) (extra : List Nat),
    (∀ r, r ∈ recs → r.length = 8356) → extra.length < 8356 →
    (concat_chunks recs ++ extra).length < fuel →
    ∃ tds, process_gz_go fuel (concat_chunks recs ++ extra) = Except.ok tds ∧
      tds.length = recs.length := by
  intro recs
  induction recs with
  | nil =>
    intro fuel extra h1 h2 h3
    cases fuel with
    | zero => exact absurd h3 (Nat.not_lt_zero _)
    | succ f =>
      refine ⟨[], ?_, rfl⟩
      simp only [concat_chunks, List.nil_append]
      simp only [process_gz_go, read_from_eof extra h2]
      rfl
  | cons r rest ih =>
    intro fuel extra h1 h2 h3
    cases fuel with
    | zero => exact absurd h3 (Nat.not_lt_zero _)
    | succ f =>
      have hr : r.length = 8356 := h1 r (List.mem_cons_self _ _)
      have hlen : 8356 ≤ (concat_chunks (r :: rest) ++ extra).length := by
        simp [concat_chunks, hr]
      obtain ⟨td, htd, hv⟩ := read_from_spec _ hlen
      have hdrop : (concat_chunks (r :: rest) ++ extra).drop 8356 =
          concat_chunks rest ++ extra := by
        simp only [concat_chunks, List.append_assoc]
        rw [← hr, List.drop_left]
      rw [hdrop] at htd
      obtain ⟨tds, htds, hl⟩ := ih f extra
        (fun r' hm => h1 r' (List.mem_cons_of_mem _ hm)) h2
        (by simp [concat_chunks] at h3 ⊢; omega)
      refine ⟨td :: tds, ?_, by simp [hl]⟩
      simp only [process_gz_go, htd, htds]

/-- C2 counterexample: a stream that runs out of bytes in the middle of a
record (here: 4 bytes, more than zero but fewer than one full record) is not
reported as an error — the per-stream decode loop succeeds. -/
theorem c2_counterexample_truncated_stream_accepted :
    process_gz_file [0, 0, 0, 0] = Except.ok [] := rfl

/-- C2 (amended): running out of bytes mid-record is not distinguished from
clean end-of-stream: the underlying reads report both as UnexpectedEof and
process_gz_file treats any UnexpectedEof as end-of-stream, succeeding in both
cases and returning exactly the records decoded from the complete-record
prefix of the stream. -/
theorem c2_amended_truncation_treated_as_eof (recs : List (List Nat))
    (extra : List Nat) (hrecs : ∀ r, r ∈ recs → r.length = 8356)
    (hextra : extra.length < 8356) :
    ∃ tds, process_gz_file (concat_chunks recs ++ extra) = Except.ok tds ∧
      tds.length = recs.length := by
  unfold process_gz_file
  exact gz_go_spec recs ((concat_chunks recs ++ extra).length + 1) extra
    hrecs hextra (by omega)

/-- Witness for the amended C2: an empty record prefix followed by a 4-byte
truncated tail is decoded to Ok with zero records. -/
theorem c2_amended_witness :
    ∃ tds, process_gz_file (concat_chunks [] ++ [0, 0, 0, 0]) =
      Except.ok tds ∧ tds.length = 0 :=
  c2_amended_truncation_treated_as_eof [] [0, 0, 0, 0] (by simp) (by norm_num)

theorem tar_go_spec : ∀ (entries : List TarEntry) (idx : Nat), idx ≤ 10 →
    process_tar_go idx entries =
      gz_records_concat
        ((entries.filter (fun e => ends_with_gz e.path)).take (11 - idx)) := by
  intro entries
  induction entries with
  | nil => intro idx h; simp [process_tar_go, gz_records_concat]
  | cons e rest ih =>
    intro idx h
    simp only [process_tar_go]
    by_cases hgz : ends_with_gz e.path = true
    · rw [if_pos hgz, List.filter_cons_of_pos (by simpa using hgz)]
      rw [show 11 - idx = (10 - idx) + 1 from by omega, List.take_succ_cons]
      simp only [gz_records_concat]
      by_cases hidx : idx + 1 > 10
      · have h10 : idx = 10 := by omega
        subst h10
        rw [if_pos hidx]
        rw [show (10 : Nat) - 10 = 0 from rfl, List.take_zero]
        simp [gz_records_concat]
      · rw [if_neg hidx]
        rw [ih (idx + 1) (by omega)]
        rw [show 11 - (idx + 1) = 10 - idx from by omega]
    · rw [if_neg hgz, List.filter_cons_of_neg (by simpa using hgz)]
      exact ih idx h

/-- C6: the whole-archive processing function reads and decodes only the
first 11 entries whose names end in ".gz" (a qualifying entry counts toward
the cap even when its decompression or decoding fails, since it still
occupies one of the 11 slots), silently ignoring all later qualifying
entries; the num_entries argument limits only how many decoded records main
prints, not how many are processed. -/
theorem c6_tar_cap_eleven (entries : List TarEntry) (num_entries : Nat) :
    process_tar_file entries =
      Except.ok (gz_records_concat
        ((entries.filter (fun e => ends_with_gz e.path)).take 11)) ∧
    main_printed num_entries entries =
      (gz_records_concat
        ((entries.filter (fun e => ends_with_gz e.path)).take 11)).take
        num_entries := by
  have h := tar_go_spec entries 0 (by norm_num)
  norm_num at h
  constructor
  · simp [process_tar_file, h]
  · simp [main_printed, process_tar_file, h]

/-- C7: a decode or decompression error inside one archive entry aborts only
that entry's stream: the loop contributes nothing for the failing entry and
continues with the next archive entries unchanged, and process_tar_file still
returns Ok (the per-entry error is never propagated as its own failure). -/
theorem c7_entry_error_isolated (e : TarEntry) (err : IoErrorKind)
    (rest : List TarEntry) (idx : Nat) (hgz : ends_with_gz e.path = true)
    (herr : process_entry e = Except.error err) (hidx : idx ≤ 9) :
    process_tar_go idx (e :: rest) = process_tar_go (idx + 1) rest ∧
    ∃ tds, process_tar_file (e :: rest) = Except.ok tds := by
  constructor
  · simp only [process_tar_go]
    rw [if_pos hgz]
    rw [show entryRecords e = [] from by simp [entryRecords, herr]]
    rw [if_neg (by omega : ¬(idx + 1 > 10))]
    simp
  · exact ⟨_, rfl⟩

/-- Witness for C7: one failing ".gz" entry followed by nothing. -/
theorem c7_entry_error_isolated_witness :
    process_tar_go 0
        ({ path := ['a', '.', 'g', 'z'],
           content := Except.error IoErrorKind.other } :: []) =
      process_tar_go 1 [] ∧
    ∃ tds, process_tar_file
        [{ path := ['a', '.', 'g', 'z'],
           content := Except.error IoErrorKind.other }] = Except.ok tds :=
  c7_entry_error_isolated _ IoErrorKind.other [] 0 (by decide) rfl
    (by norm_num)

/-- C3: for every own-rook bitboard with exactly two bits set (bit positions
i < j < 64), the castling inference produces a kingside-rook mask equal to
the lowest set bit of the bitboard (x & (-x)), a queenside-rook mask equal to
the bitboard with that lowest bit cleared, and opponent masks equal to the
byte swap of the corresponding own masks. -/
theorem c3_castling_masks :
    ∀ i j : Fin 64, (i : Nat) < (j : Nat) →
      kingside_rook_mask (2 ^ (i : Nat) + 2 ^ (j : Nat)) = 2 ^ (i : Nat) ∧
      queenside_rook_mask (2 ^ (i : Nat) + 2 ^ (j : Nat)) = 2 ^ (j : Nat) ∧
      opponent_kingside_mask (2 ^ (i : Nat) + 2 ^ (j : Nat)) =
        byteswap64 (kingside_rook_mask (2 ^ (i : Nat) + 2 ^ (j : Nat))) ∧
      opponent_queenside_mask (2 ^ (i : Nat) + 2 ^ (j : Nat)) =
        byteswap64 (queenside_rook_mask (2 ^ (i : Nat) + 2 ^ (j : Nat))) := by
  decide

/-- Witness for C3 at the particular bitboard with bits 0 and 7 set: the
kingside mask has only bit 0 set and the queenside mask only bit 7. -/
theorem c3_castling_masks_witness :
    kingside_rook_mask (2 ^ 0 + 2 ^ 7) = 2 ^ 0 ∧
    queenside_rook_mask (2 ^ 0 + 2 ^ 7) = 2 ^ 7 ∧
    opponent_kingside_mask (2 ^ 0 + 2 ^ 7) =
      byteswap64 (kingside_rook_mask (2 ^ 0 + 2 ^ 7)) ∧
    opponent_queenside_mask (2 ^ 0 + 2 ^ 7) =
      byteswap64 (queenside_rook_mask (2 ^ 0 + 2 ^ 7)) :=
  c3_castling_masks 0 7 (by decide)

/-- C4: the emit decision counts the set bits across the 12 per-type-per-side
bitboards and drops the position when the count is at most the fixed
minimum-pieces threshold (7); in particular a position with exactly 7
occupied squares is dropped and one with exactly 8 is retained. -/
theorem c4_piece_count_filter (boards : List Nat) :
    (piece_count boards ≤ MIN_PIECES → keep_position boards = false) ∧
    (piece_count boards = 7 → keep_position boards = false) ∧
    (piece_count boards = 8 → keep_position boards = true) := by
  unfold keep_position MIN_PIECES
  refine ⟨fun h => ?_, fun h => ?_, fun h => ?_⟩ <;> simp_all

/-- Witness for C4 at two concrete 12-bitboard positions, one with 7 and one
with 8 occupied squares. -/
theorem c4_piece_count_filter_witness :
    piece_count [127, 0, 0, 0, 0, 0, 0, 0, 0, 0, 0, 0] = 7 ∧
    keep_position [127, 0, 0, 0, 0, 0, 0, 0, 0, 0, 0, 0] = false ∧
    piece_count [255, 0, 0, 0, 0, 0, 0, 0, 0, 0, 0, 0] = 8 ∧
    keep_position [255, 0, 0, 0, 0, 0, 0, 0, 0, 0, 0, 0] = true :=
  ⟨by decide,
    (c4_piece_count_filter [127, 0, 0, 0, 0, 0, 0, 0, 0, 0, 0, 0]).2.1
      (by decide),
    by decide,
    (c4_piece_count_filter [255, 0, 0, 0, 0, 0, 0, 0, 0, 0, 0, 0]).2.2
      (by decide)⟩
